import Mathlib

/-!
Verification of the possession-logging core of the play-tagger app
(src/app.py, Play Tagger v8.0.5).

The embedding covers: the pure outcome functions, the clock arithmetic,
the possession record builder, the Confirm / push / Undo handlers together
with their persistence effects, and the two dashboard aggregation bases
(Credit Play and All Tagged Plays).

Python strings are modelled as Lean `String`; the Python string primitives
the app uses (`str.split` with a one-character separator, `str.strip`,
`str.join`) are re-implemented over `List Char` to match Python semantics.
Percentages computed with float arithmetic in the app are modelled as
exact rationals.  The Google-Sheets persistence collaborator is modelled
as a list of durable rows plus a log of the append / overwrite calls the
handlers issue; a boolean parameter stands for whether a remote call
raises (the `except` paths in the app).
-/

namespace PlayTagger

/-- app.py line 20: `AUTO_DEC_SECONDS = 8` — seconds auto-decremented after Confirm. -/
def AUTO_DEC_SECONDS : Int := 8

/-- app.py lines 179-180: chained conditional mapping an outcome string to points. -/
def points_from_outcome (o : String) : Int :=
  if o = "Made 2" then 2
  else if o = "Made 3" then 3
  else if o = "Foul (Made 1/2)" then 1
  else if o = "Foul (Made 2/2)" then 2
  else 0

/-- app.py lines 181-182: membership of the outcome in the scoring list. -/
def is_success (outcome : String) : Bool :=
  decide (outcome ∈ (["Made 2", "Made 3", "Foul (Made 1/2)", "Foul (Made 2/2)"] : List String))

/-- app.py lines 461-464: `add_seconds` clamps the new clock total into `[0, 12*60]`
and splits it back into minutes and seconds (Python `//` and `%` on the
clamped non-negative total coincide with `Int` euclidean division). -/
def add_seconds (m s delta : Int) : Int × Int :=
  let total := m * 60 + s + delta
  let clamped := max 0 (min (12 * 60) total)
  (clamped / 60, clamped % 60)

/-- app.py lines 632-635: subtract the fixed constant after a confirmed
possession, clamping at zero. -/
def auto_decrement_clock (m s : Int) : Int × Int :=
  let total := max 0 (m * 60 + s - AUTO_DEC_SECONDS)
  (total / 60, total % 60)

/-! ### Python string primitives over `List Char` -/

/-- Whitespace as stripped by Python `str.strip()`. -/
def isSpc (c : Char) : Bool := c.isWhitespace

/-- Python `str.strip()`: drop leading and trailing whitespace. -/
def pyStripL (l : List Char) : List Char :=
  ((l.dropWhile isSpc).reverse.dropWhile isSpc).reverse

/-- Python `str.split(sep)` with a one-character separator: split at every
occurrence, keeping empty chunks (`"".split("|") == [""]`). -/
def pySplitL (sep : Char) : List Char → List (List Char)
  | [] => [[]]
  | c :: rest =>
    if c = sep then [] :: pySplitL sep rest
    else
      match pySplitL sep rest with
      | [] => [[c]]
      | chunk :: chunks => (c :: chunk) :: chunks

/-- Python `sep.join(items)`. -/
def pyJoinL (sep : List Char) : List (List Char) → List Char
  | [] => []
  | [x] => x
  | x :: y :: ys => x ++ sep ++ pyJoinL sep (y :: ys)

/-- app.py line 594 (also 315): `" | ".join(items) if items else ""`. -/
def join_pipe (items : List String) : String :=
  if items.isEmpty then "" else ⟨pyJoinL (" | ").data (items.map String.data)⟩

/-- app.py lines 731-732: `Plays` split on `"|"`, each piece stripped, empty
pieces dropped — the play list the All-Tagged-Plays basis explodes over. -/
def splitPlays (s : String) : List String :=
  (((pySplitL '|' s.data).map pyStripL).filter (fun l => !l.isEmpty)).map (fun l => ⟨l⟩)

/-! ### Records, UI selections and handlers -/

/-- One persisted possession record (column layout of `GAME_HEADERS`,
app.py lines 104-107 / 599-613). -/
structure Row where
  timestamp : String
  plays : String
  creditPlay : String
  callType : String
  caller : String
  outcome : String
  points : Int
  secondChance : String
  scOutcome : String
  quarter : String
  opponent : String
  gameType : String
  success : String
deriving DecidableEq

/-- The coach's in-progress selections read by `build_row_from_ui`:
`sel_plays_sorted`, `ss["credit_play"]`, `sel_call_types`, `caller`,
`second_chance`, `sel_sc_outcomes`, the game clock, and the active game's
metadata (quarter / opponent / type). -/
structure UIState where
  selPlays : List String
  creditPlay : Option String
  callTypes : List String
  callerSel : String
  secondChance : String
  scOutcomes : List String
  clockMin : Int
  clockSec : Int
  quarter : String
  opponent : String
  gameType : String
deriving DecidableEq

/-- Python `f"{s:02d}"` used for the stored seconds string. -/
def fmt2 (n : Int) : String :=
  if n < 10 then "0" ++ toString n else toString n

/-- app.py lines 593-613: build one possession record from the current UI
selections.  `ss.get("credit_play") or (sel_plays_sorted[0] if sel_plays_sorted
else "")` falls through on a falsy credit play (None or the empty string). -/
def build_row_from_ui (ui : UIState) (outcome_text : String) : Row :=
  { timestamp := toString ui.clockMin ++ ":" ++ fmt2 ui.clockSec
    plays := join_pipe ui.selPlays
    creditPlay :=
      match ui.creditPlay with
      | some c => if c = "" then ui.selPlays.headD "" else c
      | none => ui.selPlays.headD ""
    callType := join_pipe (if ui.callTypes.isEmpty then ["Half Court"] else ui.callTypes)
    caller := ui.callerSel
    outcome := outcome_text
    points := points_from_outcome outcome_text
    secondChance := ui.secondChance
    scOutcome := if ui.secondChance = "Yes" then join_pipe ui.scOutcomes else ""
    quarter := ui.quarter
    opponent := ui.opponent
    gameType := ui.gameType
    success := if is_success outcome_text then "Yes" else "No" }

/-- A call issued to the persistence collaborator: `sheets_append_play`
appends one row, `sheets_overwrite_game` replaces the full contents. -/
inductive PersistOp where
  | append (r : Row)
  | overwrite (rows : List Row)
deriving DecidableEq

/-- The state the handlers mutate: the in-memory record list for the
current game (`ss["game_data"][current]`), the durable sheet contents,
and the log of persistence calls issued. -/
structure Store where
  records : List Row
  sheet : List Row
  ops : List PersistOp
deriving DecidableEq

/-- app.py lines 615-630: append to the in-memory list; when Sheets is
connected, forward the row to the append call and rehydrate the local list
from the sheet; a raised persistence error (`appendOk = false`) is caught
and reported (the returned flag) without touching the local append. -/
def push_row (connected appendOk : Bool) (r : Row) (st : Store) : Store × Bool :=
  let localRecs := st.records ++ [r]
  if connected then
    if appendOk then
      let sheet2 := st.sheet ++ [r]
      ({ records := if sheet2.isEmpty then localRecs else sheet2
         sheet := sheet2
         ops := st.ops ++ [PersistOp.append r] }, false)
    else
      ({ records := localRecs, sheet := st.sheet
         ops := st.ops ++ [PersistOp.append r] }, true)
  else
    ({ records := localRecs, sheet := st.sheet, ops := st.ops }, false)

/-- Python truthiness test `not ss.get("credit_play")`: true on None and "". -/
def creditFalsy (c : Option String) : Bool :=
  match c with
  | none => true
  | some s => s == ""

/-- app.py lines 681-693: the Confirm handler.  With no play selected, or a
falsy credit play, it warns (flag `true`) and does nothing else; otherwise it
builds the row and pushes it.  (The UI-only effects on success — clearing the
pending action and the selection, auto-decrementing the clock — do not touch
the store and are modelled by `auto_decrement_clock` separately.) -/
def confirmPress (connected appendOk : Bool) (ui : UIState) (pending : String) (st : Store) :
    Store × Bool :=
  if ui.selPlays.isEmpty then (st, true)
  else if creditFalsy ui.creditPlay then (st, true)
  else ((push_row connected appendOk (build_row_from_ui ui pending) st).1, false)

/-- app.py lines 654-667: the Undo Last handler.  On an empty list it warns
(flag `true`) and issues no persistence call; otherwise it pops the last
record and mirrors the remaining list with a full overwrite. -/
def undo_last (connected overwriteOk : Bool) (st : Store) : Store × Bool :=
  if st.records.isEmpty then (st, true)
  else
    let remaining := st.records.dropLast
    if connected then
      if overwriteOk then
        ({ records := remaining, sheet := remaining
           ops := st.ops ++ [PersistOp.overwrite remaining] }, false)
      else
        ({ records := remaining, sheet := st.sheet
           ops := st.ops ++ [PersistOp.overwrite remaining] }, false)
    else
      ({ records := remaining, sheet := st.sheet, ops := st.ops }, false)

/-- app.py lines 580-583: when plays are selected the Credit Play selectbox
offers only `sel_plays_sorted`, defaulting to the previous choice when still
selected and to the first play otherwise. -/
def creditPicker (prev : Option String) (selPlays : List String) : Option String :=
  if selPlays.isEmpty then prev
  else
    match prev with
    | some c => if selPlays.contains c then some c else selPlays.head?
    | none => selPlays.head?

/-! ### Dashboard aggregation -/

/-- app.py line 714: records with a non-empty Credit Play. -/
def credRows (rows : List Row) : List Row :=
  rows.filter (fun r => r.creditPlay != "")

/-- app.py lines 717-721: group size for credit play `g`
(`Attempts=("Points", "count")` counts the rows of the group). -/
def attemptsCredit (rows : List Row) (g : String) : Nat :=
  ((credRows rows).filter (fun r => r.creditPlay == g)).length

/-- The set of group keys `groupby("Credit Play")` forms. -/
def creditKeys (rows : List Row) : Finset String :=
  ((credRows rows).map Row.creditPlay).toFinset

/-- app.py lines 722-724: `Freq% = 100.0 * Attempts / max(total_poss_credit, 1)`
with `total_poss_credit = len(cred)`. -/
def freqPctCredit (rows : List Row) (g : String) : ℚ :=
  100 * (attemptsCredit rows g : ℚ) / ((max (credRows rows).length 1 : Nat) : ℚ)

/-- app.py lines 730-733: one exploded row per (play, record) pair. -/
def explodedPlays (rows : List Row) : List (String × Row) :=
  rows.flatMap (fun r => (splitPlays r.plays).map (fun p => (p, r)))

/-- app.py lines 734-738: group size for play `p` on the exploded rows. -/
def attemptsAll (rows : List Row) (p : String) : Nat :=
  ((explodedPlays rows).filter (fun x => x.1 == p)).length

/-- app.py lines 739-741: `Freq% = 100.0 * Attempts / max(total_poss_all, 1)`
with `total_poss_all = len(vis)` — the possession count, not the exploded count. -/
def freqPctAll (rows : List Row) (p : String) : ℚ :=
  100 * (attemptsAll rows p : ℚ) / ((max rows.length 1 : Nat) : ℚ)

/-! ### Concrete sample inputs used by the witnesses -/

def sampleUI : UIState :=
  { selPlays := ["Pistol", "Rub"], creditPlay := some "Pistol"
    callTypes := ["Half Court"], callerSel := "Coach", secondChance := "No"
    scOutcomes := [], clockMin := 10, clockSec := 30, quarter := "Q1"
    opponent := "Opp", gameType := "Game" }

def sampleRow : Row := build_row_from_ui sampleUI "Made 3"

def sampleUI2 : UIState :=
  { selPlays := ["Flow"], creditPlay := some "Flow"
    callTypes := ["Half Court"], callerSel := "Coach", secondChance := "No"
    scOutcomes := [], clockMin := 9, clockSec := 50, quarter := "Q1"
    opponent := "Opp", gameType := "Game" }

def sampleRow2 : Row := build_row_from_ui sampleUI2 "Made 2"

def emptyStore : Store := { records := [], sheet := [], ops := [] }

def sampleUIEmpty : UIState := { sampleUI with selPlays := [], creditPlay := none }

/-! ## Helper lemmas on the Python string primitives -/

theorem dropWhile_length_eq {α} {p : α → Bool} (l : List α)
    (h : (l.dropWhile p).length = l.length) : l.dropWhile p = l := by
  cases l with
  | nil => rfl
  | cons a t =>
    rw [List.dropWhile_cons] at h ⊢
    by_cases hp : p a
    · rw [if_pos hp] at h
      have hle := (List.dropWhile_sublist (l := t) p).length_le
      simp at h
      omega
    · rw [if_neg hp]

theorem clean_dropWhile {n : List Char} (h : pyStripL n = n) :
    n.dropWhile isSpc = n ∧ n.reverse.dropWhile isSpc = n.reverse := by
  have l1 : ((n.dropWhile isSpc).reverse.dropWhile isSpc).length
      ≤ (n.dropWhile isSpc).length := by
    have := (List.dropWhile_sublist (l := (n.dropWhile isSpc).reverse) isSpc).length_le
    simpa using this
  have l2 : (n.dropWhile isSpc).length ≤ n.length :=
    (List.dropWhile_sublist (l := n) isSpc).length_le
  have hlen : (pyStripL n).length = n.length := by rw [h]
  have hlen2 : (pyStripL n).length
      = ((n.dropWhile isSpc).reverse.dropWhile isSpc).length := by
    simp [pyStripL]
  have e1 : (n.dropWhile isSpc).length = n.length := by omega
  have h1 : n.dropWhile isSpc = n := dropWhile_length_eq n e1
  refine ⟨h1, ?_⟩
  rw [pyStripL, h1] at h
  have h2 := congrArg List.reverse h
  rwa [List.reverse_reverse] at h2

theorem strip_cons_space (l : List Char) : pyStripL (' ' :: l) = pyStripL l := by
  have hsp : isSpc ' ' = true := by decide
  simp [pyStripL, List.dropWhile_cons, hsp]

theorem strip_concat_space {n : List Char} (hne : n ≠ []) (h : pyStripL n = n) :
    pyStripL (n ++ [' ']) = n := by
  obtain ⟨h1, h2⟩ := clean_dropWhile h
  cases n with
  | nil => exact absurd rfl hne
  | cons a t =>
    have ha : ¬ isSpc a = true := by
      intro hp
      rw [List.dropWhile_cons, if_pos hp] at h1
      have hlen := congrArg List.length h1
      have hle := (List.dropWhile_sublist (l := t) isSpc).length_le
      simp at hlen
      omega
    have hsp : isSpc ' ' = true := by decide
    rw [pyStripL, List.cons_append, List.dropWhile_cons, if_neg ha]
    have hrev : (a :: (t ++ [' '])).reverse = ' ' :: (a :: t).reverse := by
      simp
    rw [hrev, List.dropWhile_cons, if_pos hsp, h2, List.reverse_reverse]

theorem pySplitL_ne_nil (sep : Char) (l : List Char) : pySplitL sep l ≠ [] := by
  cases l with
  | nil => simp [pySplitL]
  | cons c rest =>
    rw [pySplitL]
    by_cases h : c = sep
    · simp [h]
    · rw [if_neg h]
      cases pySplitL sep rest <;> simp

theorem pySplitL_no_sep {sep : Char} {l : List Char} (h : sep ∉ l) : pySplitL sep l = [l] := by
  induction l with
  | nil => rfl
  | cons c rest ih =>
    have hc : ¬ c = sep := by
      intro e
      exact h (by simp [e])
    have hr : sep ∉ rest := fun hm => h (List.mem_cons_of_mem _ hm)
    rw [pySplitL, if_neg hc, ih hr]

theorem pySplitL_append {sep : Char} {xs : List Char} (h : sep ∉ xs) (ys : List Char) :
    pySplitL sep (xs ++ sep :: ys) = xs :: pySplitL sep ys := by
  induction xs with
  | nil =>
    simp only [List.nil_append]
    rw [pySplitL, if_pos rfl]
  | cons c rest ih =>
    have hc : ¬ c = sep := by
      intro e
      exact h (by simp [e])
    have hr : sep ∉ rest := fun hm => h (List.mem_cons_of_mem _ hm)
    rw [List.cons_append, pySplitL, if_neg hc, ih hr]

theorem pySplit_cons_space_strip (z : List Char) :
    (pySplitL '|' (' ' :: z)).map pyStripL = (pySplitL '|' z).map pyStripL := by
  have h : ¬ (' ' = '|') := by decide
  rw [pySplitL, if_neg h]
  cases hz : pySplitL '|' z with
  | nil => exact absurd hz (pySplitL_ne_nil '|' z)
  | cons chunk chunks => simp [strip_cons_space]

theorem pipe_sep_data : (" | ").data = [' ', '|', ' '] := rfl

theorem split_join_L (l : List (List Char))
    (h : ∀ n ∈ l, n ≠ [] ∧ '|' ∉ n ∧ pyStripL n = n) :
    ((pySplitL '|' (pyJoinL (" | ").data l)).map pyStripL).filter (fun x => !x.isEmpty) = l := by
  induction l with
  | nil => rfl
  | cons a l2 ih =>
    obtain ⟨hne, hnp, hst⟩ := h a (List.mem_cons_self a l2)
    have hrest : ∀ n ∈ l2, n ≠ [] ∧ '|' ∉ n ∧ pyStripL n = n :=
      fun n hn => h n (List.mem_cons_of_mem _ hn)
    have hae : (!a.isEmpty) = true := by
      cases a with
      | nil => exact absurd rfl hne
      | cons x xs => rfl
    cases l2 with
    | nil =>
      show ((pySplitL '|' a).map pyStripL).filter (fun x => !x.isEmpty) = [a]
      rw [pySplitL_no_sep hnp, List.map_cons, List.map_nil, hst, List.filter_cons, hae]
      rfl
    | cons b t =>
      have hsep : '|' ∉ a ++ [' '] := by
        intro hm
        rcases List.mem_append.mp hm with hm | hm
        · exact hnp hm
        · simp at hm
      have hkey : pyJoinL (" | ").data (a :: b :: t)
          = (a ++ [' ']) ++ '|' :: (' ' :: pyJoinL (" | ").data (b :: t)) := by
        show a ++ (" | ").data ++ pyJoinL (" | ").data (b :: t) = _
        rw [pipe_sep_data]
        simp [List.append_assoc]
      rw [hkey, pySplitL_append hsep]
      rw [List.map_cons, strip_concat_space hne hst]
      rw [pySplit_cons_space_strip]
      rw [List.filter_cons, hae]
      rw [if_pos rfl, ih hrest]

theorem split_join_roundtrip (sel : List String)
    (h : ∀ s ∈ sel, s.data ≠ [] ∧ '|' ∉ s.data ∧ pyStripL s.data = s.data) :
    splitPlays (join_pipe sel) = sel := by
  have hyp : ∀ n ∈ sel.map String.data, n ≠ [] ∧ '|' ∉ n ∧ pyStripL n = n := by
    intro n hn
    obtain ⟨s, hs, rfl⟩ := List.mem_map.mp hn
    exact h s hs
  have hL := split_join_L (sel.map String.data) hyp
  have hdata : (join_pipe sel).data = pyJoinL (" | ").data (sel.map String.data) := by
    cases sel with
    | nil => rfl
    | cons x xs => rfl
  rw [splitPlays, hdata, hL, List.map_map]
  have hcomp : ((fun l => (⟨l⟩ : String)) ∘ String.data) = id := by
    funext s
    rfl
  rw [hcomp, List.map_id]

/-! ## Claim theorems -/

/-- Claim C2: `points_from_outcome` returns 2 for "Made 2", 3 for "Made 3",
1 for "Foul (Made 1/2)", 2 for "Foul (Made 2/2)", and 0 for every other
string. -/
theorem points_determinism :
    (points_from_outcome "Made 2" = 2 ∧ points_from_outcome "Made 3" = 3 ∧
     points_from_outcome "Foul (Made 1/2)" = 1 ∧ points_from_outcome "Foul (Made 2/2)" = 2) ∧
    ∀ o : String,
      o ∉ (["Made 2", "Made 3", "Foul (Made 1/2)", "Foul (Made 2/2)"] : List String) →
      points_from_outcome o = 0 := by
  refine ⟨⟨by decide, by decide, by decide, by decide⟩, ?_⟩
  intro o h
  simp only [List.mem_cons, List.not_mem_nil, or_false, not_or] at h
  obtain ⟨h1, h2, h3, h4⟩ := h
  simp [points_from_outcome, h1, h2, h3, h4]

/-- Witness for C2: a member of the closed outcome vocabulary outside the
scoring set yields 0 points. -/
theorem points_determinism_witness : points_from_outcome "Turnover" = 0 :=
  points_determinism.2 "Turnover" (by decide)

/-- Claim C3: `is_success` holds exactly on the four scoring outcomes, and
every record the builder produces carries a Success field consistent with
`is_success` applied to its Outcome. -/
theorem success_determinism :
    (∀ o : String, is_success o = true ↔
      (o = "Made 2" ∨ o = "Made 3" ∨ o = "Foul (Made 1/2)" ∨ o = "Foul (Made 2/2)")) ∧
    ∀ (ui : UIState) (o : String),
      (build_row_from_ui ui o).outcome = o ∧
      (build_row_from_ui ui o).success = (if is_success o then "Yes" else "No") ∧
      ((build_row_from_ui ui o).success = "Yes" ↔
        is_success (build_row_from_ui ui o).outcome = true) := by
  constructor
  · intro o
    simp [is_success]
  · intro ui o
    refine ⟨rfl, rfl, ?_⟩
    show (if is_success o then "Yes" else "No") = "Yes" ↔ is_success o = true
    cases h : is_success o <;> simp [h]

/-- Claim C10: `add_seconds` always lands in the legal clock range
`[0, 12*60]`, and `auto_decrement_clock` clamps at 0:00 and never goes
negative. -/
theorem clock_never_leaves_range :
    (∀ m s delta : Int,
      0 ≤ (add_seconds m s delta).1 ∧ 0 ≤ (add_seconds m s delta).2 ∧
      0 ≤ (add_seconds m s delta).1 * 60 + (add_seconds m s delta).2 ∧
      (add_seconds m s delta).1 * 60 + (add_seconds m s delta).2 ≤ 12 * 60) ∧
    ∀ m s : Int,
      0 ≤ (auto_decrement_clock m s).1 ∧ 0 ≤ (auto_decrement_clock m s).2 ∧
      (m * 60 + s ≤ AUTO_DEC_SECONDS → auto_decrement_clock m s = (0, 0)) := by
  constructor
  · intro m s delta
    simp only [add_seconds]
    refine ⟨?_, ?_, ?_, ?_⟩ <;> omega
  · intro m s
    refine ⟨?_, ?_, ?_⟩
    · simp only [auto_decrement_clock, AUTO_DEC_SECONDS]
      omega
    · simp only [auto_decrement_clock, AUTO_DEC_SECONDS]
      omega
    · intro h
      have h0 : max 0 (m * 60 + s - AUTO_DEC_SECONDS) = 0 := by
        simp only [AUTO_DEC_SECONDS] at h ⊢
        omega
      simp [auto_decrement_clock, h0]

/-- Witness for C10: a possession confirmed with 5 seconds left clamps the
clock to exactly 0:00, and a large positive nudge clamps at 12:00. -/
theorem clock_never_leaves_range_witness :
    auto_decrement_clock 0 5 = (0, 0) ∧
    (add_seconds 11 59 120).1 * 60 + (add_seconds 11 59 120).2 ≤ 12 * 60 :=
  ⟨(clock_never_leaves_range.2 0 5).2.2 (by decide),
   (clock_never_leaves_range.1 11 59 120).2.2.2⟩

/-! ## Helper lemmas on the aggregation bases -/

theorem filter_pair_length (L : List String) (r : Row) (p : String) :
    ((L.map (fun q => (q, r))).filter (fun x => x.1 == p)).length
      = (L.filter (fun q => q == p)).length := by
  induction L with
  | nil => rfl
  | cons a t ih =>
    by_cases h : (a == p) = true
    · simp [List.filter_cons, h, ih]
    · simp [List.filter_cons, h, ih]

theorem count_eq_filter_length (L : List String) (p : String) :
    (L.filter (fun q => q == p)).length = L.count p := by
  rw [List.count_eq_countP, List.countP_eq_length_filter]

theorem attemptsAll_cons (r : Row) (t : List Row) (p : String) :
    attemptsAll (r :: t) p = (splitPlays r.plays).count p + attemptsAll t p := by
  rw [attemptsAll, attemptsAll, explodedPlays, explodedPlays]
  rw [List.flatMap_cons, List.filter_append, List.length_append]
  rw [filter_pair_length, count_eq_filter_length]

theorem attemptsAll_eq_record_count (rows : List Row) (p : String)
    (hdup : ∀ r ∈ rows, (splitPlays r.plays).Nodup) :
    attemptsAll rows p = (rows.filter (fun r => decide (p ∈ splitPlays r.plays))).length := by
  induction rows with
  | nil => rfl
  | cons r t ih =>
    have hdt : ∀ x ∈ t, (splitPlays x.plays).Nodup :=
      fun x hx => hdup x (List.mem_cons_of_mem _ hx)
    rw [attemptsAll_cons, ih hdt, List.filter_cons]
    by_cases hm : p ∈ splitPlays r.plays
    · rw [List.count_eq_one_of_mem (hdup r (List.mem_cons_self r t)) hm]
      simp [hm]
      omega
    · rw [List.count_eq_zero_of_not_mem hm]
      simp [hm]

theorem count_map_creditPlay (l : List Row) (k : String) :
    (l.map Row.creditPlay).count k = (l.filter (fun r => r.creditPlay == k)).length := by
  induction l with
  | nil => rfl
  | cons r t ih =>
    rw [List.map_cons, List.count_cons, List.filter_cons]
    by_cases h : r.creditPlay = k
    · simp [h, ih]
    · have h2 : ¬ (k = r.creditPlay) := fun e => h e.symm
      simp [h, h2, ih]

theorem sum_attemptsCredit (rows : List Row) :
    (∑ k ∈ creditKeys rows, attemptsCredit rows k) = (credRows rows).length := by
  have hsum := Multiset.toFinset_sum_count_eq (((credRows rows).map Row.creditPlay : List String) : Multiset String)
  rw [Multiset.coe_card] at hsum
  calc (∑ k ∈ creditKeys rows, attemptsCredit rows k)
      = ∑ k ∈ ((credRows rows).map Row.creditPlay).toFinset,
          Multiset.count k (((credRows rows).map Row.creditPlay : List String) : Multiset String) := by
        refine Finset.sum_congr rfl ?_
        intro k _
        rw [Multiset.coe_count, count_map_creditPlay, attemptsCredit]
    _ = ((credRows rows).map Row.creditPlay).length := hsum
    _ = (credRows rows).length := List.length_map _ _

theorem push_row_mem (connected appendOk : Bool) (r : Row) (st : Store) :
    r ∈ (push_row connected appendOk r st).1.records := by
  cases connected <;> cases appendOk <;> simp [push_row]

/-! ## Remaining claim theorems -/

/-- Claim C1: on the All Tagged Plays basis, each (record, play) pair counts
once toward that play's attempts, and the frequency percentage of every play
uses the total possession count (the number of records, not the exploded row
count) as its denominator — a constant independent of the play. -/
theorem grp_all_denominator (rows : List Row) (p : String)
    (hne : rows ≠ [])
    (hdup : ∀ r ∈ rows, (splitPlays r.plays).Nodup) :
    attemptsAll rows p = (rows.filter (fun r => decide (p ∈ splitPlays r.plays))).length ∧
    freqPctAll rows p = 100 * (attemptsAll rows p : ℚ) / (rows.length : ℚ) := by
  refine ⟨attemptsAll_eq_record_count rows p hdup, ?_⟩
  rw [freqPctAll]
  have h0 : rows.length ≠ 0 := fun h0 => hne (List.length_eq_zero.mp h0)
  have h1 : max rows.length 1 = rows.length := by omega
  rw [h1]

/-- Witness for C1: one possession tagged "Pistol | Rub" counts once for
"Pistol" and its frequency denominator is the possession count. -/
theorem grp_all_denominator_witness :
    attemptsAll [sampleRow] "Pistol"
        = ([sampleRow].filter (fun r => decide ("Pistol" ∈ splitPlays r.plays))).length ∧
    freqPctAll [sampleRow] "Pistol"
        = 100 * (attemptsAll [sampleRow] "Pistol" : ℚ) / (([sampleRow] : List Row).length : ℚ) :=
  grp_all_denominator [sampleRow] "Pistol" (by simp) (by decide)

/-- Claim C4: on the Credit Play basis only credit-bearing records are
counted: the attempts summed over all groups equal the number of records
with a non-empty credit play, and every group's frequency percentage divides
by that count, not by the whole dataset size. -/
theorem grp_credit_denominator (rows : List Row) (g : String)
    (hne : credRows rows ≠ []) :
    (∑ k ∈ creditKeys rows, attemptsCredit rows k) = (credRows rows).length ∧
    freqPctCredit rows g
      = 100 * (attemptsCredit rows g : ℚ) / ((credRows rows).length : ℚ) := by
  refine ⟨sum_attemptsCredit rows, ?_⟩
  rw [freqPctCredit]
  have h0 : (credRows rows).length ≠ 0 := fun h0 => hne (List.length_eq_zero.mp h0)
  have h1 : max (credRows rows).length 1 = (credRows rows).length := by omega
  rw [h1]

/-- Witness for C4: two credit-bearing records, one per play, sum to the
credit-bearing count and use it as the frequency denominator. -/
theorem grp_credit_denominator_witness :
    (∑ k ∈ creditKeys [sampleRow, sampleRow2], attemptsCredit [sampleRow, sampleRow2] k)
        = (credRows [sampleRow, sampleRow2]).length ∧
    freqPctCredit [sampleRow, sampleRow2] "Flow"
        = 100 * (attemptsCredit [sampleRow, sampleRow2] "Flow" : ℚ)
            / ((credRows [sampleRow, sampleRow2]).length : ℚ) :=
  grp_credit_denominator [sampleRow, sampleRow2] "Flow" (by decide)

/-- Claim C5: a confirmed submission with a non-empty plays selection (whose
credit play, as the picker guarantees, is one of the selected plays, and
whose play names are the stripped, pipe-free names the playbook holds)
produces a record whose credit play is an element of its stored plays set. -/
theorem confirmed_credit_in_plays (connected appendOk : Bool) (ui : UIState)
    (pending : String) (st : Store) (c : String)
    (hc : ui.creditPlay = some c) (hmem : c ∈ ui.selPlays)
    (hclean : ∀ s ∈ ui.selPlays, s.data ≠ [] ∧ '|' ∉ s.data ∧ pyStripL s.data = s.data) :
    (confirmPress connected appendOk ui pending st).2 = false ∧
    build_row_from_ui ui pending ∈ (confirmPress connected appendOk ui pending st).1.records ∧
    (build_row_from_ui ui pending).creditPlay
      ∈ splitPlays (build_row_from_ui ui pending).plays := by
  have hselne : ui.selPlays ≠ [] := List.ne_nil_of_mem hmem
  have hcne : c ≠ "" := by
    have hd := (hclean c hmem).1
    intro e
    rw [e] at hd
    exact hd rfl
  have hcf : creditFalsy ui.creditPlay = false := by
    rw [hc, creditFalsy]
    simp [hcne]
  have hse : ui.selPlays.isEmpty = false := by
    simp [hselne]
  have hcp : (build_row_from_ui ui pending).creditPlay = c := by
    show (match ui.creditPlay with
      | some c => if c = "" then ui.selPlays.headD "" else c
      | none => ui.selPlays.headD "") = c
    rw [hc]
    simp [hcne]
  have hpl : splitPlays (build_row_from_ui ui pending).plays = ui.selPlays :=
    split_join_roundtrip ui.selPlays hclean
  refine ⟨?_, ?_, ?_⟩
  · rw [confirmPress, hse, hcf]
    rfl
  · rw [confirmPress, hse, hcf]
    show build_row_from_ui ui pending
      ∈ (push_row connected appendOk (build_row_from_ui ui pending) st).1.records
    exact push_row_mem connected appendOk _ st
  · rw [hcp, hpl]
    exact hmem

/-- Witness for C5: the sample confirmed submission stores credit play
"Pistol" inside its plays set. -/
theorem confirmed_credit_in_plays_witness :
    (confirmPress true true sampleUI "Made 3" emptyStore).2 = false ∧
    build_row_from_ui sampleUI "Made 3"
      ∈ (confirmPress true true sampleUI "Made 3" emptyStore).1.records ∧
    (build_row_from_ui sampleUI "Made 3").creditPlay
      ∈ splitPlays (build_row_from_ui sampleUI "Made 3").plays :=
  confirmed_credit_in_plays true true sampleUI "Made 3" emptyStore "Pistol"
    rfl (by decide) (by decide)

/-- Claim C6: pressing Confirm with no play selected, or with a falsy credit
play, only warns: the store (in-memory records, sheet, persistence-call log)
is returned unchanged. -/
theorem confirm_rejects_invalid (connected appendOk : Bool) (ui : UIState)
    (pending : String) (st : Store)
    (h : ui.selPlays = [] ∨ creditFalsy ui.creditPlay = true) :
    confirmPress connected appendOk ui pending st = (st, true) := by
  rcases h with h | h
  · have hse : ui.selPlays.isEmpty = true := by
      rw [h]
      rfl
    rw [confirmPress, hse]
    rfl
  · by_cases hse : ui.selPlays.isEmpty
    · rw [confirmPress, hse]
      rfl
    · rw [confirmPress]
      simp [hse, h]

/-- Witness for C6: confirming with the empty selection leaves the empty
store untouched and warns. -/
theorem confirm_rejects_invalid_witness :
    confirmPress true true sampleUIEmpty "Made 2" emptyStore = (emptyStore, true) :=
  confirm_rejects_invalid true true sampleUIEmpty "Made 2" emptyStore (Or.inl rfl)

/-- Claim C7: `push_row` appends to the in-memory list first and forwards the
record to the persistence append; when the persistence write raises, the
error is caught and reported and the in-memory append is not rolled back
(the record also stays in the local list when the write succeeds). -/
theorem push_row_no_rollback (r : Row) (st : Store) :
    (push_row true false r st).1.records = st.records ++ [r] ∧
    (push_row true false r st).2 = true ∧
    (push_row true false r st).1.ops = st.ops ++ [PersistOp.append r] ∧
    (push_row true false r st).1.sheet = st.sheet ∧
    r ∈ (push_row true false r st).1.records ∧
    r ∈ (push_row true true r st).1.records :=
  ⟨rfl, rfl, rfl, rfl, push_row_mem true false r st, push_row_mem true true r st⟩

/-- Claim C8: Undo Last on an empty record list warns and issues no
persistence call; on a non-empty list it removes exactly the most recently
appended record and mirrors the remainder with a full overwrite. -/
theorem undo_last_spec (st : Store) :
    (st.records = [] → undo_last true true st = (st, true)) ∧
    (st.records ≠ [] →
      (undo_last true true st).1.records = st.records.dropLast ∧
      (∀ (l : List Row) (r : Row), st.records = l ++ [r] →
        (undo_last true true st).1.records = l) ∧
      (undo_last true true st).1.sheet = st.records.dropLast ∧
      (undo_last true true st).1.ops
        = st.ops ++ [PersistOp.overwrite st.records.dropLast] ∧
      (undo_last true true st).2 = false) := by
  constructor
  · intro h
    have hse : st.records.isEmpty = true := by
      rw [h]
      rfl
    rw [undo_last, hse]
    rfl
  · intro h
    have hse : st.records.isEmpty = false := by
      simp [h]
    rw [undo_last, hse]
    refine ⟨rfl, ?_, rfl, rfl, rfl⟩
    intro l r hlr
    show st.records.dropLast = l
    rw [hlr, List.dropLast_concat]

/-- Witness for C8: undo on an empty store warns and changes nothing; undo on
a one-record store leaves the empty list. -/
theorem undo_last_spec_witness :
    undo_last true true emptyStore = (emptyStore, true) ∧
    (undo_last true true { records := [sampleRow], sheet := [sampleRow], ops := [] }).1.records
      = [] := by
  constructor
  · exact (undo_last_spec emptyStore).1 rfl
  · exact ((undo_last_spec { records := [sampleRow], sheet := [sampleRow], ops := [] }).2
      (by simp)).2.1 [] sampleRow rfl

/-- Counterexample for C9 as stated: the play name "X " contains no pipe
character, yet serializing and re-splitting the selection drops its trailing
whitespace, so the original selection is not recovered. -/
theorem plays_roundtrip_counterexample :
    '|' ∉ ("X ").data ∧ splitPlays (join_pipe ["X "]) ≠ ["X "] := by
  constructor
  · decide
  · decide

/-- Claim C9 (amended): the pipe-join serialization followed by the View-B
split/strip recovers exactly the original selection, for every selection
whose play names are non-empty, contain no pipe character, and carry no
leading or trailing whitespace (names equal their stripped form). -/
theorem plays_roundtrip_amended (sel : List String)
    (h : ∀ s ∈ sel, s.data ≠ [] ∧ '|' ∉ s.data ∧ pyStripL s.data = s.data) :
    splitPlays (join_pipe sel) = sel :=
  split_join_roundtrip sel h

/-- Witness for C9 (amended): a two-play selection round-trips exactly. -/
theorem plays_roundtrip_amended_witness :
    splitPlays (join_pipe ["Pistol", "Rub"]) = ["Pistol", "Rub"] :=
  plays_roundtrip_amended ["Pistol", "Rub"] (by decide)

end PlayTagger
